import Mathlib

/-!
Verification of the MIRA model-translation core against its specification.

The development shallowly embeds the Python sources:
  * `mira/sources/sbml/processor.py`  (reaction-network importer),
  * `mira/sources/bilayer.py`         (bilayer importer),
  * `mira/modeling/petri.py` and `mira/modeling/askenet/petrinet.py`
    (Petri-net exporters).
Symbolic sympy expressions are embedded as the inductive `Expr`; Python
dicts keyed by strings are embedded as association lists with Python dict
update semantics (`assocSet`, `assocPop`).
-/

namespace Mira

/-- Embedding of a sympy expression as used by the importer: numeric
literals, symbols, sums, products, quotients, powers and logarithms.
Sympy performs algebraic auto-simplification that this tree does not;
theorems therefore only state facts that are stable under simplification
(free-symbol sets, template variants) or facts about expression trees the
source manipulates purely structurally. -/
inductive Expr where
  | num : ℚ → Expr
  | sym : String → Expr
  | add : Expr → Expr → Expr
  | mul : Expr → Expr → Expr
  | div : Expr → Expr → Expr
  | pow : Expr → Expr → Expr
  | log : Expr → Expr
deriving DecidableEq

/-- Free symbol names of an expression, with duplicates possible; embeds
`sympy.Expr.free_symbols` (also `variables_from_sympy_expr` in
processor.py, which recursively collects `sympy.Symbol` names). -/
def Expr.freeSymbols : Expr → List String
  | .num _ => []
  | .sym s => [s]
  | .add a b => a.freeSymbols ++ b.freeSymbols
  | .mul a b => a.freeSymbols ++ b.freeSymbols
  | .div a b => a.freeSymbols ++ b.freeSymbols
  | .pow a b => a.freeSymbols ++ b.freeSymbols
  | .log a => a.freeSymbols

/-- Substitution of a symbol by an expression; embeds `sympy.Expr.subs`
with a single symbol-to-value pair (substitution of an absent symbol is a
no-op, as in sympy). -/
def Expr.substitute : Expr → String → Expr → Expr
  | .num q, _, _ => .num q
  | .sym s, x, v => if s = x then v else .sym s
  | .add a b, x, v => .add (a.substitute x v) (b.substitute x v)
  | .mul a b, x, v => .mul (a.substitute x v) (b.substitute x v)
  | .div a b, x, v => .div (a.substitute x v) (b.substitute x v)
  | .pow a b, x, v => .pow (a.substitute x v) (b.substitute x v)
  | .log a, x, v => .log (a.substitute x v)

/-- Symbolic derivative with respect to a symbol; embeds
`sympy.Expr.diff(symbol)` (sum, product, quotient, power and logarithm
rules). -/
def Expr.deriv : Expr → String → Expr
  | .num _, _ => .num 0
  | .sym s, x => if s = x then .num 1 else .num 0
  | .add a b, x => .add (a.deriv x) (b.deriv x)
  | .mul a b, x => .add (.mul (a.deriv x) b) (.mul a (b.deriv x))
  | .div a b, x =>
      .div (.add (.mul (a.deriv x) b) (.mul (.num (-1)) (.mul a (b.deriv x))))
        (.mul b b)
  | .pow a b, x =>
      .mul (.pow a b)
        (.add (.mul (b.deriv x) (.log a)) (.div (.mul b (a.deriv x)) a))
  | .log a, x => .div (a.deriv x) a

/-- Membership of a whole expression in a set of symbols, as tested by the
Python line `rate_expr not in rate_expr.diff(comp_symbol).free_symbols` in
processor.py: an expression is an element of a set of sympy Symbols
exactly when it is itself one of those symbols. -/
def Expr.memSymbolSet : Expr → List String → Bool
  | .sym s, set => set.contains s
  | _, _ => false

/-- Insertion of a string into a sorted list, ascending lexicographic
order (helper for `sortStrings`). -/
def insertSorted (x : String) : List String → List String
  | [] => [x]
  | y :: ys => if x < y then x :: y :: ys else y :: insertSorted x ys

/-- Ascending lexicographic sort of a list of strings; embeds the Python
builtin `sorted` applied to a set of species identifiers. -/
def sortStrings (l : List String) : List String :=
  l.foldr insertSorted []

/-- Embedding of `mira.metamodel` Concept data. Modelled from the spec:
the `mira.metamodel.templates` module is not under src/; spec section 3
gives a Concept a name, an identifiers mapping (ontology prefix to local
id) and a context mapping, compared by value. The `units` attribute is
omitted: the reaction-network importer constructs every concept with
`units=None` (`_extract_concept` is called without a units argument), so
it never distinguishes two concepts. -/
structure Concept where
  name : String
  identifiers : List (String × String)
  context : List (String × String)
deriving DecidableEq

/-- The nine template variants. Modelled from the spec: the closed
taxonomy table of spec section 3. -/
inductive TemplateVariant where
  | naturalConversion
  | controlledConversion
  | groupedControlledConversion
  | naturalProduction
  | controlledProduction
  | groupedControlledProduction
  | naturalDegradation
  | controlledDegradation
  | groupedControlledDegradation
deriving DecidableEq

/-- Embedding of a `mira.metamodel` Template. Modelled from the spec:
the templates module is not under src/. Spec section 9 records that the
source constructs templates dynamically from whichever role fields are
set, so subject and outcome are optional slots here; a singly controlled
variant stores its one controller as a singleton `controllers` list. -/
structure Template where
  variant : TemplateVariant
  subject : Option Concept
  outcome : Option Concept
  controllers : List Concept
  rate_law : Option Expr
deriving DecidableEq

/-- Names of the concepts a template holds in its subject or outcome
slots: the roles `find_constant_concepts` classifies as changing. -/
def Template.changingNames (t : Template) : List String :=
  (t.subject.map Concept.name).toList ++ (t.outcome.map Concept.name).toList

/-- Names of all concepts in any role slot of a template. Modelled from
the spec: `Template.get_concepts_by_role` is not under src/; spec
section 3 lists the role slots as subject, outcome and controller(s), so
the role values of a template are its populated subject, outcome and
controller slots. -/
def Template.allRoleNames (t : Template) : List String :=
  t.changingNames ++ t.controllers.map Concept.name

/-- Embedding of a bilayer box after the Wn/Wa/Win relations of the
document have been resolved into concept lists (bilayer.py,
`template_model_from_bilayer`). -/
structure Box where
  inputs : List Concept
  outputs : List Concept
  controllers : List Concept
deriving DecidableEq

/-- Embedding of `box_to_template` (bilayer.py lines 59 to 80). The two
leading Python assertions on the input and output arity become the
guard; `none` is the assertion failure. The source then unpacks
`input`/`output` as the first element or `None` and dispatches on the
number of controllers; with at least one controller it always builds the
Conversion-shaped controlled variant, passing the possibly absent input
and output straight through as subject and outcome. -/
def box_to_template (box : Box) : Option Template :=
  if box.inputs.length ≤ 1 ∧ box.outputs.length ≤ 1 then
    let input := box.inputs.head?
    let output := box.outputs.head?
    some <|
      match box.controllers with
      | [] =>
        match input, output with
        | none, o => ⟨.naturalProduction, none, o, [], none⟩
        | some i, none => ⟨.naturalDegradation, some i, none, [], none⟩
        | some i, some o => ⟨.naturalConversion, some i, some o, [], none⟩
      | [c] => ⟨.controlledConversion, input, output, [c], none⟩
      | cs => ⟨.groupedControlledConversion, input, output, cs, none⟩
  else
    none

/-- Python dict update `d[k] = v` on an association list: replaces the
value in place when the key is present, appends otherwise. -/
def assocSet {α : Type} : List (String × α) → String → α → List (String × α)
  | [], k, v => [(k, v)]
  | (k', v') :: rest, k, v =>
      if k' = k then (k, v) :: rest else (k', v') :: assocSet rest k v

/-- Python dict `d.pop(k)` on an association list: removes the entry with
the given key. -/
def assocPop {α : Type} (d : List (String × α)) (k : String) :
    List (String × α) :=
  d.filter fun e => e.1 ≠ k

/-- Python `str.startswith(pre)` on the underlying character lists. -/
def strStartsWith (s pre : String) : Bool :=
  pre.data.isPrefixOf s.data

/-- Python `'cumulative' in species_id` (substring test), used by the
concept lookup filter in `SbmlProcessor.extract_model`. -/
def containsCumulative (s : String) : Bool :=
  decide ("cumulative".data.IsInfix s.data)

/-- Embedding of one SBML reaction as `SbmlProcessor.extract_model` sees
it: the reactant, product and modifier species-id lists, the reversible
attribute from the SBML document, and the kinetic-law expression already
parsed against the shared symbol table and with assignment rules
substituted (lines 186 to 196 of processor.py). -/
structure Reaction where
  reactants : List String
  products : List String
  modifiers : List String
  reversible : Bool
  rateExpr : Expr
deriving DecidableEq

/-- Embedding of the compartment-volume handling in
`SbmlProcessor.extract_model` (lines 198 to 211) for one compartment:
`comp_one` is set only when the compartment symbol occurs free in the
rate law, the Python test `rate_expr not in
rate_expr.diff(comp_symbol).free_symbols` passes (membership of the whole
expression in the set of symbols of the derivative, `Expr.memSymbolSet`),
and the stored volume equals 1.0; in that case the rate law is divided by
the symbol, otherwise the symbol is substituted by the numeric volume. -/
def handleCompartment (rate : Expr) (comp : String) (vol : ℚ) : Expr :=
  let compOne :=
    rate.freeSymbols.contains comp &&
      !(rate.memSymbolSet ((rate.deriv comp).freeSymbols)) &&
      (vol == 1)
  if compOne then Expr.div rate (Expr.sym comp)
  else rate.substitute comp (Expr.num vol)

/-- Embedding of `_lookup_concepts_filtered` (processor.py lines 113 to
117): species ids are dropped when they are reporter ids or contain the
substring cumulative, the rest are resolved through the concept map. -/
def lookupConceptsFiltered (concepts : String → Concept)
    (reporterIds : List String) (speciesIds : List String) : List Concept :=
  (speciesIds.filter fun i =>
      !(reporterIds.contains i) && !(containsCumulative i)).map concepts

/-- Embedding of the per-reaction body of `SbmlProcessor.extract_model`
(processor.py lines 186 to 302), returning the templates the reaction
contributes. After the compartment pass, the implicit modifiers are the
free symbols of the rate law that are species ids and are neither
reactants nor declared modifiers (products are not removed, lines 218 to
219); they extend the declared modifiers in sorted order. A one
reactant/one product reaction with identical (nonempty-named) reactant
and product concept is skipped as degenerate; otherwise the variant is
picked by controller count. The source then falls through to the
production/degradation test, which appends nothing in the one-to-one case
since both sides are nonempty, and skips reactions with several species
on both sides. The reversible attribute is never consulted. -/
def reactionToTemplates (concepts : String → Concept)
    (allSpecies reporterIds : List String)
    (compartments : List (String × ℚ)) (r : Reaction) : List Template :=
  let rateExpr :=
    compartments.foldl (fun e c => handleCompartment e c.1 c.2) r.rateExpr
  let implicitModifiers :=
    sortStrings <|
      rateExpr.freeSymbols.dedup.filter fun v =>
        allSpecies.contains v && !(r.reactants.contains v) &&
          !(r.modifiers.contains v)
  let modifierSpecies := r.modifiers ++ implicitModifiers
  let modifiers := lookupConceptsFiltered concepts reporterIds modifierSpecies
  let reactants := lookupConceptsFiltered concepts reporterIds r.reactants
  let products := lookupConceptsFiltered concepts reporterIds r.products
  match reactants, products with
  | [rc], [pc] =>
    if rc.name ≠ "" ∧ rc = pc then []
    else
      match modifiers with
      | [] => [⟨.naturalConversion, some rc, some pc, [], some rateExpr⟩]
      | [m] => [⟨.controlledConversion, some rc, some pc, [m], some rateExpr⟩]
      | ms => [⟨.groupedControlledConversion, some rc, some pc, ms,
                some rateExpr⟩]
  | [], [] => []
  | reactants', products' =>
    if products' ≠ [] ∧ reactants' ≠ [] then []
    else if products' ≠ [] then
      match modifiers with
      | [] => [⟨.naturalProduction, none, products'.head?, [],
                some rateExpr⟩]
      | [m] => [⟨.controlledProduction, none, products'.head?, [m],
                 some rateExpr⟩]
      | ms => [⟨.groupedControlledProduction, none, products'.head?, ms,
                some rateExpr⟩]
    else
      match modifiers with
      | [] => [⟨.naturalDegradation, reactants'.head?, none, [],
                some rateExpr⟩]
      | [m] => [⟨.controlledDegradation, reactants'.head?, none, [m],
                 some rateExpr⟩]
      | ms => [⟨.groupedControlledDegradation, reactants'.head?, none, ms,
                some rateExpr⟩]

/-- Embedding of a TemplateModel as far as the normalization pass reads
it. Modelled from the spec for the container itself (section 3): the
templates sequence, the parameter values by name, and the initial values
by concept name (Parameter descriptions and Initial concept objects play
no role in the passes under verification and are omitted). -/
structure TemplateModel where
  templates : List Template
  parameters : List (String × ℚ)
  initials : List (String × ℚ)
deriving DecidableEq

/-- Embedding of `find_constant_concepts` (processor.py lines 447 to
460): concept names appearing in some role of some template but never as
a subject or outcome. The source returns a Python set with unspecified
iteration order; this embedding fixes first-appearance order. -/
def find_constant_concepts (tm : TemplateModel) : List String :=
  let allConcepts := (tm.templates.flatMap Template.allRoleNames).dedup
  let changingConcepts := tm.templates.flatMap Template.changingNames
  allConcepts.filter fun n => !(changingConcepts.contains n)

/-- Embedding of `replace_controller_by_constant` (processor.py lines 488
to 517). A ControlledConversion whose controller carries the constant
name becomes a NaturalConversion; a GroupedControlledConversion with more
than two controllers drops the controllers with that name; one with at
most two controllers becomes a ControlledConversion that keeps the FIRST
stored controller, whichever it is (the source reads
`template.controllers[0]` without checking which controller matched, and
without checking membership at all). In every rewritten template the
constant symbol is substituted by its numeric value in the rate law.
`none` means the source returned None and the caller keeps the original
template; the source would raise on an empty controller list
(`controllers[0]`), which is unreachable for well-formed grouped
templates and is rendered as `none` as well. -/
def replace_controller_by_constant (t : Template) (controllerName : String)
    (value : ℚ) : Option Template :=
  match t.variant with
  | .controlledConversion =>
    match t.controllers with
    | [c] =>
      if c.name = controllerName then
        some ⟨.naturalConversion, t.subject, t.outcome, [],
          t.rate_law.map fun e => e.substitute controllerName (.num value)⟩
      else none
    | _ => none
  | .groupedControlledConversion =>
    if t.controllers.length > 2 then
      some ⟨.groupedControlledConversion, t.subject, t.outcome,
        t.controllers.filter (fun c => c.name ≠ controllerName),
        t.rate_law.map fun e => e.substitute controllerName (.num value)⟩
    else
      match t.controllers with
      | c0 :: _ =>
        some ⟨.controlledConversion, t.subject, t.outcome, [c0],
          t.rate_law.map fun e => e.substitute controllerName (.num value)⟩
      | [] => none
  | _ => none

/-- Embedding of `replace_constant_concepts` (processor.py lines 463 to
485): for each constant concept, its initial value (default 1.0) is
recorded as a parameter and every template is passed through
`replace_controller_by_constant`, keeping the original when that returns
None. The constant set is computed once, from the incoming model. -/
def replace_constant_concepts (tm : TemplateModel) : TemplateModel :=
  (find_constant_concepts tm).foldl
    (fun m name =>
      let value := (m.initials.lookup name).getD 1
      { m with
        parameters := assocSet m.parameters name value
        templates := m.templates.map fun t =>
          (replace_controller_by_constant t name value).getD t })
    tm

/-- Embedding of the reaction-to-model portion of
`SbmlProcessor.extract_model` (processor.py lines 106 to 321): the
per-reaction templates are concatenated in reaction order, packed into a
TemplateModel together with the parameter and initial maps the method
assembles from the SBML species and parameters (taken here as inputs),
and the constant-concept elimination pass is applied. -/
def extract_model (concepts : String → Concept)
    (allSpecies reporterIds : List String)
    (compartments : List (String × ℚ)) (reactions : List Reaction)
    (parameters initials : List (String × ℚ)) : TemplateModel :=
  let templates :=
    reactions.flatMap (reactionToTemplates concepts allSpecies reporterIds
      compartments)
  replace_constant_concepts ⟨templates, parameters, initials⟩

/-- Embedding of one transition of the pre-compiled `mira.modeling.Model`
as the two Petri-net exporters read it. Modelled from the spec: the
`mira.modeling` Model class is not under src/; per spec section 4.5 a
transition carries the controller, consumed and produced concepts, here
by their variable keys. -/
structure ModelTransition where
  control : List String
  consumed : List String
  produced : List String
deriving DecidableEq

/-- Input arcs one transition contributes in `PetriNetModel.__init__`
(petri.py lines 125 to 135): an is/it pair per controller, then one per
consumed variable, with `it` the 1-based transition index. -/
def petriTransitionInputs (vmap : String → Nat) (idx : Nat)
    (t : ModelTransition) : List (Nat × Nat) :=
  t.control.map (fun c => (vmap c, idx + 1)) ++
    t.consumed.map (fun c => (vmap c, idx + 1))

/-- Output arcs one transition contributes in `PetriNetModel.__init__`
(petri.py lines 125 to 135): an os/ot pair per controller, then one per
produced variable. -/
def petriTransitionOutputs (vmap : String → Nat) (idx : Nat)
    (t : ModelTransition) : List (Nat × Nat) :=
  t.control.map (fun c => (vmap c, idx + 1)) ++
    t.produced.map (fun c => (vmap c, idx + 1))

/-- Input list of one transition in `AskeNetPetriNetModel.__init__`
(askenet/petrinet.py lines 122 to 131): the state names of the
controllers followed by those of the consumed variables. -/
def askenetTransitionInputs (nmap : String → String)
    (t : ModelTransition) : List String :=
  t.control.map nmap ++ t.consumed.map nmap

/-- Output list of one transition in `AskeNetPetriNetModel.__init__`
(askenet/petrinet.py lines 122 to 131): the state names of the
controllers followed by those of the produced variables. -/
def askenetTransitionOutputs (nmap : String → String)
    (t : ModelTransition) : List String :=
  t.control.map nmap ++ t.produced.map nmap

/-- The attribute dictionary of an `AskeNetPetriNetModel` right after
`__init__` (askenet/petrinet.py lines 81 to 156): the constructor assigns
exactly the attributes states, transitions and parameters. The attribute
values themselves are abstracted. -/
def askenetInit {α : Type} (states transitions parameters : α) :
    List (String × α) :=
  [("states", states), ("transitions", transitions),
   ("parameters", parameters)]

/-- Embedding of `AskeNetPetriNetModel.to_json` (askenet/petrinet.py
lines 159 to 167): the payload reads the attributes states, transitions,
inputs and outputs in the order the dict literal evaluates them; a
missing attribute is an AttributeError, rendered as `none`. -/
def askenetToJson {α : Type} (self : List (String × α)) :
    Option (List (String × α)) := do
  let s ← self.lookup "states"
  let t ← self.lookup "transitions"
  let i ← self.lookup "inputs"
  let o ← self.lookup "outputs"
  pure [("S", s), ("T", t), ("I", i), ("O", o)]

/-- Python loop over the copied identifiers dict in `grounding_normalize`
(processor.py lines 742 to 748): the first argument is the remaining
snapshot entries being iterated, the second the dict being mutated. An
ncit entry whose value starts with 000 is popped and refiled under ido;
an ido entry whose value starts with C is popped and refiled under
ncit. -/
def normalizeIdentifiersLoop :
    List (String × String) → List (String × String) → List (String × String)
  | [], d => d
  | (k, v) :: rest, d =>
    if k = "ncit" ∧ strStartsWith v "000" then
      normalizeIdentifiersLoop rest (assocSet (assocPop d "ncit") "ido" v)
    else if k = "ido" ∧ strStartsWith v "C" then
      normalizeIdentifiersLoop rest (assocSet (assocPop d "ido") "ncit" v)
    else
      normalizeIdentifiersLoop rest d

/-- Priority prefix/identifier pair of a concept. Modelled from the spec:
`Concept.get_curie` lives in the `mira.metamodel` module absent from
src/; the spec (section 3) treats the identifiers mapping as the
grounding of the concept, so this model returns the first identifier
pair, and an empty prefix when the concept is ungrounded. The theorems
about `grounding_normalize` only apply it to empty or singleton
identifier mappings, where any reading of get_curie agrees. -/
def getCurie (c : Concept) : String × String :=
  match c.identifiers with
  | [] => ("", c.name)
  | (k, v) :: _ => (k, v)

/-- Embedding of `grounding_normalize` (processor.py lines 740 to 765):
the ncit/ido prefix-swap loop over the identifiers, followed by the
curie-specific fix-up chain (acquired-immunity property, susceptible
with property, immune/recovered, and the deceased remap from
ncit:C168970 to ncit:C28554). -/
def grounding_normalize (c : Concept) : Concept :=
  let c1 : Concept :=
    ⟨c.name, normalizeIdentifiersLoop c.identifiers c.identifiers, c.context⟩
  if (getCurie c1).1 = "" ∧ c1.context = [("property", "ido:0000621")] then
    ⟨c1.name, assocSet c1.identifiers "ido" "0000592", []⟩
  else if getCurie c1 = ("ido", "0000514") ∧
      c1.context = [("property", "ido:0000468")] then
    ⟨c1.name, c1.identifiers, []⟩
  else if getCurie c1 = ("ncit", "C171133") ∧
      c1.context = [("property", "ido:0000621")] then
    ⟨c1.name, [("ido", "0000592")], []⟩
  else if getCurie c1 = ("ncit", "C168970") then
    ⟨c1.name, [("ncit", "C28554")], c1.context⟩
  else
    c1

/-- The identifier invariant the spec attributes to grounding
normalization: no ncit entry keeps a value starting with 000 and no ido
entry keeps a value starting with C. -/
def goodIdentifiers (d : List (String × String)) : Prop :=
  ∀ v : String,
    (("ncit", v) ∈ d → ¬ strStartsWith v "000") ∧
    (("ido", v) ∈ d → ¬ strStartsWith v "C")

/-- The implicit controller set exactly as claim C2 words it: free
symbols of the rate law, intersected with the known species, minus the
subject, the declared controllers and the outcome. Stated from the
claim, for comparison against the source computation. -/
def claimedImplicitControllers (rateExpr : Expr)
    (allSpecies subject declared outcome : List String) : List String :=
  sortStrings <|
    rateExpr.freeSymbols.dedup.filter fun v =>
      allSpecies.contains v && !(subject.contains v) &&
        !(declared.contains v) && !(outcome.contains v)

/-- Fixture concept named S, ungrounded, for concrete scenarios. -/
def conceptS : Concept := ⟨"S", [], []⟩

/-- Fixture concept named I, ungrounded, for concrete scenarios. -/
def conceptI : Concept := ⟨"I", [], []⟩

/-- Fixture concept named O, ungrounded, for concrete scenarios. -/
def conceptO : Concept := ⟨"O", [], []⟩

/-- Fixture concept named X, ungrounded, for concrete scenarios. -/
def conceptX : Concept := ⟨"X", [], []⟩

/-- Fixture concept named Y, ungrounded, for concrete scenarios. -/
def conceptY : Concept := ⟨"Y", [], []⟩

/-- Fixture concept map sending every species id to the ungrounded
concept of the same name, as `_extract_concepts` does for species
without annotations or curated groundings. -/
def plainConcepts : String → Concept := fun n => ⟨n, [], []⟩

/-- Fixture mass-action rate law k*S*I. -/
def rateKSI : Expr := .mul (.mul (.sym "k") (.sym "S")) (.sym "I")

/-- Fixture model for the constant-concept pass: one grouped controlled
conversion S to O controlled by X and Y with rate k*X*Y*S, one natural
degradation of Y with rate d*Y, and an initial value 2 for X; X is the
only constant concept. -/
def constantPassModel : TemplateModel :=
  ⟨[⟨.groupedControlledConversion, some conceptS, some conceptO,
      [conceptX, conceptY],
      some (.mul (.mul (.sym "k") (.sym "X")) (.mul (.sym "Y") (.sym "S")))⟩,
    ⟨.naturalDegradation, some conceptY, none, [],
      some (.mul (.sym "d") (.sym "Y"))⟩],
   [], [("X", 2)]⟩

/-- Fixture variable-key numbering for the exporter scenarios: C maps to
place 3, S to place 1 and everything else to place 2. -/
def sampleVarIndex : String → Nat :=
  fun n => if n = "C" then 3 else if n = "S" then 1 else 2

/-- C2, counterexample. The claim states the implicit controller set
excludes the outcome. On a reaction with reactant S, product I, no
declared modifiers and rate law k*S*I, the importer computes the implicit
controller set without removing the product: it emits a
ControlledConversion whose controller is the outcome concept I, while
the formula of the claim yields the empty controller set, under which
the emitted template would have had no controllers. -/
theorem sbml_implicit_controllers_outcome_not_excluded :
    reactionToTemplates plainConcepts ["S", "I"] [] []
        ⟨["S"], ["I"], [], false, rateKSI⟩ =
      [⟨.controlledConversion, some conceptS, some conceptI, [conceptI],
        some rateKSI⟩] ∧
    claimedImplicitControllers rateKSI ["S", "I"] ["S"] [] ["I"] = [] ∧
    [conceptI] ≠ ([] : List Concept) := by
  refine ⟨rfl, rfl, by decide⟩

/-- C3: evaluation of `replace_controller_by_constant` at a
GroupedControlledConversion with controllers [X, Y] when the constant
concept is X. The claim says the rewrite keeps the one remaining
controller Y; the code instead keeps the first stored controller X, the
very concept being eliminated, while substituting the symbol X by its
value 2 in the rate law. -/
theorem replace_controller_by_constant_keeps_eliminated_controller :
    replace_controller_by_constant
        ⟨.groupedControlledConversion, some conceptS, some conceptO,
          [conceptX, conceptY], some (.mul (.sym "X") (.sym "Y"))⟩ "X" 2 =
      some ⟨.controlledConversion, some conceptS, some conceptO, [conceptX],
        some (.mul (.num 2) (.sym "Y"))⟩ ∧
    conceptX.name = "X" ∧ [conceptX] ≠ [conceptY] := by
  refine ⟨rfl, rfl, by decide⟩

/-- C4, counterexample: the constant-concept elimination pass is not
idempotent. On `constantPassModel` the first pass rewrites the grouped
template to a ControlledConversion that keeps the eliminated constant X
as its controller, so the second pass finds X constant again and
rewrites that template to a NaturalConversion: running the pass twice
changes the model a first pass already produced. -/
theorem replace_constant_concepts_not_idempotent :
    replace_constant_concepts (replace_constant_concepts constantPassModel) ≠
      replace_constant_concepts constantPassModel := by
  decide

/-- C5, counterexample: a bilayer box with no input, one output and one
controller. The claim predicts the Controlled variant of the same shape,
a ControlledProduction; `box_to_template` instead always builds a
ControlledConversion (with no subject) whenever there is exactly one
controller. -/
theorem box_to_template_one_controller_not_shape_directed :
    box_to_template ⟨[], [conceptO], [conceptX]⟩ =
      some ⟨.controlledConversion, none, some conceptO, [conceptX], none⟩ ∧
    TemplateVariant.controlledConversion ≠
      TemplateVariant.controlledProduction := by
  refine ⟨rfl, by decide⟩

/-- C6: the reaction-network importer never splits a reversible reaction.
A reversible reaction with reactant S, product P and rate law k*S yields
exactly one template (the forward NaturalConversion), not two, and the
result of `reactionToTemplates` does not depend on the reversible
attribute at all. -/
theorem sbml_reversible_reaction_single_template :
    (reactionToTemplates plainConcepts ["S", "P"] [] []
        ⟨["S"], ["P"], [], true, .mul (.sym "k") (.sym "S")⟩).length = 1 ∧
    (∀ (concepts : String → Concept) (allSpecies reporterIds : List String)
        (compartments : List (String × ℚ)) (r : Reaction) (b : Bool),
      reactionToTemplates concepts allSpecies reporterIds compartments
          { r with reversible := b } =
        reactionToTemplates concepts allSpecies reporterIds compartments r) := by
  refine ⟨rfl, ?_⟩
  intro concepts allSpecies reporterIds compartments r b
  cases r
  rfl

/-- C7: the linearity test of the compartment-volume handling is
vacuous, and on the nonlinear rate law C^2*k with compartment volume 1
the code divides by the compartment symbol instead of substituting it,
leaving C free in the rate law, whereas the substitution the claim
prescribes for the nonlinear case removes it. -/
theorem compartment_volume_vacuous_linearity_test :
    (∀ (e : Expr) (c : String),
        e.memSymbolSet ((e.deriv c).freeSymbols) = false) ∧
    handleCompartment (.mul (.pow (.sym "C") (.num 2)) (.sym "k")) "C" 1 =
      .div (.mul (.pow (.sym "C") (.num 2)) (.sym "k")) (.sym "C") ∧
    "C" ∈ (handleCompartment (.mul (.pow (.sym "C") (.num 2)) (.sym "k"))
        "C" 1).freeSymbols ∧
    "C" ∉ ((Expr.mul (.pow (.sym "C") (.num 2)) (.sym "k")).substitute "C"
        (.num 1)).freeSymbols := by
  refine ⟨?_, rfl, by decide, by decide⟩
  intro e c
  cases e with
  | sym s =>
    by_cases h : s = c <;>
      simp [Expr.memSymbolSet, Expr.deriv, Expr.freeSymbols, h]
  | num q => rfl
  | add a b => rfl
  | mul a b => rfl
  | div a b => rfl
  | pow a b => rfl
  | log a => rfl

/-- C9: `AskeNetPetriNetModel.to_json` reads the attributes inputs and
outputs, which the constructor never assigns, so for every constructed
model it raises instead of returning a payload. -/
theorem askenet_to_json_always_fails :
    ∀ (α : Type) (states transitions parameters : α),
      askenetToJson (askenetInit states transitions parameters) = none := by
  intro α states transitions parameters
  rfl

/-- C10, counterexample: on a concept with identifiers ncit mapped to
0001 and ido mapped to 0000511, the prefix-swap loop refiles the ncit
entry onto the ido key and thereby overwrites the ido entry 0000511,
which matches no rewrite rule: an unmatched identifier does not pass
through unchanged. -/
theorem grounding_normalize_overwrites_unmatched_identifier :
    grounding_normalize ⟨"x", [("ncit", "0001"), ("ido", "0000511")], []⟩ =
      ⟨"x", [("ido", "0001")], []⟩ ∧
    ("ido", "0000511") ∉
      (grounding_normalize
        ⟨"x", [("ncit", "0001"), ("ido", "0000511")], []⟩).identifiers ∧
    ¬ ("ido" = "ncit" ∧ strStartsWith "0000511" "000") ∧
    ¬ strStartsWith "0000511" "C" := by
  refine ⟨rfl, by decide, by decide, by decide⟩

/-- A one reactant/one product reaction whose filtered reactant and
product lists resolve to the same concept with a nonempty name
contributes no template (the degenerate continue of processor.py lines
230 to 234). -/
theorem reaction_degenerate_nil (concepts : String → Concept)
    (allSpecies reporterIds : List String)
    (compartments : List (String × ℚ)) (r : Reaction) (c : Concept)
    (h1 : lookupConceptsFiltered concepts reporterIds r.reactants = [c])
    (h2 : lookupConceptsFiltered concepts reporterIds r.products = [c])
    (h3 : ¬ c.name = "") :
    reactionToTemplates concepts allSpecies reporterIds compartments r = [] := by
  simp only [reactionToTemplates, h1, h2]
  simp [h3]

/-- C1: importing the reaction with reactants S, products I, modifier I
and rate law k*S*I yields exactly one ControlledConversion with subject
S, outcome I and controller I, for every grounding of the two distinct
species concepts; and when reactant, product and modifier are all the
same species S (for every grounding), the reaction is discarded as
degenerate and the imported model holds zero templates. Both runs go
through the full `extract_model` pipeline including the
constant-concept pass. -/
theorem sbml_one_to_one_reaction_controlled_conversion :
    ∀ (idS ctxS idI ctxI : List (String × String)),
      (extract_model
          (fun n => if n = "S" then ⟨"S", idS, ctxS⟩
                    else if n = "I" then ⟨"I", idI, ctxI⟩ else ⟨n, [], []⟩)
          ["S", "I"] [] [] [⟨["S"], ["I"], ["I"], false, rateKSI⟩] [] []) =
        ⟨[⟨.controlledConversion, some ⟨"S", idS, ctxS⟩, some ⟨"I", idI, ctxI⟩,
           [⟨"I", idI, ctxI⟩], some rateKSI⟩], [], []⟩ ∧
      (extract_model
          (fun n => if n = "S" then ⟨"S", idS, ctxS⟩ else ⟨n, [], []⟩)
          ["S"] [] []
          [⟨["S"], ["S"], ["S"], false,
            .mul (.mul (.sym "k") (.sym "S")) (.sym "S")⟩] [] []) =
        ⟨[], [], []⟩ := by
  intro idS ctxS idI ctxI
  constructor
  · rfl
  · have hdeg := reaction_degenerate_nil
      (fun n => if n = "S" then ⟨"S", idS, ctxS⟩ else ⟨n, [], []⟩)
      ["S"] [] []
      ⟨["S"], ["S"], ["S"], false,
        .mul (.mul (.sym "k") (.sym "S")) (.sym "S")⟩
      ⟨"S", idS, ctxS⟩ rfl rfl (by simp)
    simp only [extract_model, List.flatMap_cons, List.flatMap_nil, hdeg,
      List.append_nil]
    rfl

/-- C2, amended: for every reaction, every emitted template carries as
controllers exactly the declared modifiers extended, in sorted order, by
the implicit controllers computed as the free symbols of the
(compartment-processed) rate law that are species and are neither
reactants nor declared modifiers; the outcome is NOT removed from the
set. -/
theorem sbml_template_controllers_declared_plus_implicit :
    ∀ (concepts : String → Concept) (allSpecies reporterIds : List String)
      (compartments : List (String × ℚ)) (r : Reaction),
      ∀ t ∈ reactionToTemplates concepts allSpecies reporterIds compartments r,
        t.controllers =
          lookupConceptsFiltered concepts reporterIds
            (r.modifiers ++ sortStrings
              (((compartments.foldl (fun e c => handleCompartment e c.1 c.2)
                  r.rateExpr).freeSymbols.dedup).filter fun v =>
                allSpecies.contains v && !(r.reactants.contains v) &&
                  !(r.modifiers.contains v))) := by
  intro concepts allSpecies reporterIds compartments r t ht
  simp only [reactionToTemplates] at ht
  split at ht
  · split at ht
    · simp at ht
    · split at ht <;>
        (simp only [List.mem_singleton] at ht
         subst ht
         first
         | rfl
         | (rename_i heq
            exact heq.symm))
  · simp at ht
  · split at ht
    · simp at ht
    · split at ht <;>
        split at ht <;>
          (simp only [List.mem_singleton] at ht
           subst ht
           first
           | rfl
           | (rename_i heq
              exact heq.symm))

/-- Witness for `sbml_template_controllers_declared_plus_implicit` at the
reaction with reactant S, product I, no declared modifiers and rate law
k*S*I. -/
theorem sbml_template_controllers_declared_plus_implicit_witness :
    (⟨.controlledConversion, some conceptS, some conceptI, [conceptI],
        some rateKSI⟩ : Template).controllers =
      lookupConceptsFiltered plainConcepts []
        (([] : List String) ++ sortStrings
          ((rateKSI.freeSymbols.dedup).filter fun v =>
            (["S", "I"].contains v) && !(["S"].contains v) &&
              !(([] : List String).contains v))) :=
  sbml_template_controllers_declared_plus_implicit plainConcepts ["S", "I"]
    [] [] ⟨["S"], ["I"], [], false, rateKSI⟩
    ⟨.controlledConversion, some conceptS, some conceptI, [conceptI],
      some rateKSI⟩ (by decide)

/-- A successful rewrite by `replace_controller_by_constant` never
increases the controller count of a template. -/
theorem replace_controller_by_constant_controllers_le
    (t : Template) (n : String) (v : ℚ) :
    ∀ t', replace_controller_by_constant t n v = some t' →
      t'.controllers.length ≤ t.controllers.length := by
  intro t' h
  unfold replace_controller_by_constant at h
  split at h
  · split at h
    · split at h
      · rename_i heq _
        injection h with h
        subst h
        simp [heq]
      · exact absurd h (by simp)
    · exact absurd h (by simp)
  · split at h
    · injection h with h
      subst h
      simpa using List.length_filter_le _ _
    · split at h
      · rename_i heq
        injection h with h
        subst h
        simp [heq]
      · exact absurd h (by simp)
  · exact absurd h (by simp)

/-- Pointwise controller-count comparison is reflexive. -/
theorem forall2_controllers_le_refl (l : List Template) :
    List.Forall₂ (fun a b => a.controllers.length ≤ b.controllers.length)
      l l := by
  induction l with
  | nil => exact List.Forall₂.nil
  | cons x xs ih => exact List.Forall₂.cons le_rfl ih

/-- Pointwise controller-count comparison is transitive. -/
theorem forall2_controllers_le_trans :
    ∀ {a b c : List Template},
      List.Forall₂ (fun x y => x.controllers.length ≤ y.controllers.length)
        a b →
      List.Forall₂ (fun x y => x.controllers.length ≤ y.controllers.length)
        b c →
      List.Forall₂ (fun x y => x.controllers.length ≤ y.controllers.length)
        a c := by
  intro a b c h1
  induction h1 generalizing c with
  | nil =>
    intro h2
    cases h2
    exact List.Forall₂.nil
  | cons hx _ ih =>
    intro h2
    cases h2 with
    | cons hy hys => exact List.Forall₂.cons (le_trans hx hy) (ih hys)

/-- One elimination step (one constant concept) never increases any
controller count. -/
theorem replace_step_controllers_le (l : List Template) (n : String)
    (v : ℚ) :
    List.Forall₂ (fun x y => x.controllers.length ≤ y.controllers.length)
      (l.map fun t => (replace_controller_by_constant t n v).getD t) l := by
  induction l with
  | nil => exact List.Forall₂.nil
  | cons x xs ih =>
    refine List.Forall₂.cons ?_ ih
    cases hrep : replace_controller_by_constant x n v with
    | none => simp [hrep]
    | some t' =>
      simpa [hrep] using
        replace_controller_by_constant_controllers_le x n v t' hrep

/-- C4, amended: the constant-concept elimination pass preserves the
template count and never increases the controller count of any template
(position by position). The idempotence half of the claim fails, see the
counterexample. -/
theorem replace_constant_concepts_controller_counts_monotone :
    ∀ tm : TemplateModel,
      List.Forall₂ (fun a b => a.controllers.length ≤ b.controllers.length)
        (replace_constant_concepts tm).templates tm.templates := by
  intro tm
  unfold replace_constant_concepts
  generalize find_constant_concepts tm = names
  induction names generalizing tm with
  | nil => exact forall2_controllers_le_refl _
  | cons n ns ih =>
    simp only [List.foldl_cons]
    refine forall2_controllers_le_trans (ih _) ?_
    exact replace_step_controllers_le _ _ _

/-- C5, amended: for a bilayer box passing the arity assertions, zero
controllers select the variant by shape (Production without input,
Degradation without output, Conversion with both); exactly one
controller always yields a ControlledConversion and two or more always a
GroupedControlledConversion, regardless of shape, with the possibly
absent input and output passed through; in particular a box with one
input, one output and no controllers maps to a NaturalConversion. -/
theorem box_to_template_variant_by_controller_count :
    ∀ box : Box, box.inputs.length ≤ 1 → box.outputs.length ≤ 1 →
      (box.controllers = [] → box.inputs = [] →
        box_to_template box =
          some ⟨.naturalProduction, none, box.outputs.head?, [], none⟩) ∧
      (box.controllers = [] → box.inputs ≠ [] → box.outputs = [] →
        box_to_template box =
          some ⟨.naturalDegradation, box.inputs.head?, none, [], none⟩) ∧
      (box.controllers = [] → box.inputs ≠ [] → box.outputs ≠ [] →
        box_to_template box =
          some ⟨.naturalConversion, box.inputs.head?, box.outputs.head?, [],
            none⟩) ∧
      (∀ c, box.controllers = [c] →
        box_to_template box =
          some ⟨.controlledConversion, box.inputs.head?, box.outputs.head?,
            [c], none⟩) ∧
      (2 ≤ box.controllers.length →
        box_to_template box =
          some ⟨.groupedControlledConversion, box.inputs.head?,
            box.outputs.head?, box.controllers, none⟩) := by
  intro box h1 h2
  obtain ⟨ins, outs, ctrls⟩ := box
  refine ⟨?_, ?_, ?_, ?_, ?_⟩
  · intro hc hi
    subst hc; subst hi
    simp [box_to_template, h2]
  · intro hc hi ho
    subst hc; subst ho
    cases ins with
    | nil => exact absurd rfl hi
    | cons i rest =>
      cases rest with
      | nil => simp [box_to_template]
      | cons i2 r2 => simp at h1
  · intro hc hi ho
    subst hc
    cases ins with
    | nil => exact absurd rfl hi
    | cons i irest =>
      cases irest with
      | cons i2 r2 => simp at h1
      | nil =>
        cases outs with
        | nil => exact absurd rfl ho
        | cons o orest =>
          cases orest with
          | cons o2 s2 => simp at h2
          | nil => simp [box_to_template]
  · intro c hc
    subst hc
    simp [box_to_template, h1, h2]
  · intro hc
    match ctrls, hc with
    | c1 :: c2 :: rest, _ => simp [box_to_template, h1, h2]

/-- Witness for `box_to_template_variant_by_controller_count` at the box
with one input S, one output O and no controllers: exactly one
NaturalConversion. -/
theorem box_to_template_variant_by_controller_count_witness :
    box_to_template ⟨[conceptS], [conceptO], []⟩ =
      some ⟨.naturalConversion, some conceptS, some conceptO, [], none⟩ :=
  (box_to_template_variant_by_controller_count ⟨[conceptS], [conceptO], []⟩
    (by decide) (by decide)).2.2.1 rfl (by decide) (by decide)

/-- C8: in both Petri-net exporters, every controller of a transition
appears among the input arcs and among the output arcs of that
transition (consume and replenish); every consumed variable appears
among the inputs and, when its place or name collides with no controller
or produced variable, not among the outputs; symmetrically, every
produced variable appears among the outputs and, absent collisions, not
among the inputs. -/
theorem petri_exporters_controller_consume_and_replenish :
    ∀ (vmap : String → Nat) (nmap : String → String) (idx : Nat)
      (t : ModelTransition),
      (∀ c ∈ t.control,
        (vmap c, idx + 1) ∈ petriTransitionInputs vmap idx t ∧
        (vmap c, idx + 1) ∈ petriTransitionOutputs vmap idx t ∧
        nmap c ∈ askenetTransitionInputs nmap t ∧
        nmap c ∈ askenetTransitionOutputs nmap t) ∧
      (∀ s ∈ t.consumed,
        (vmap s, idx + 1) ∈ petriTransitionInputs vmap idx t ∧
        nmap s ∈ askenetTransitionInputs nmap t ∧
        (vmap s ∉ t.control.map vmap → vmap s ∉ t.produced.map vmap →
          (vmap s, idx + 1) ∉ petriTransitionOutputs vmap idx t) ∧
        (nmap s ∉ t.control.map nmap → nmap s ∉ t.produced.map nmap →
          nmap s ∉ askenetTransitionOutputs nmap t)) ∧
      (∀ p ∈ t.produced,
        (vmap p, idx + 1) ∈ petriTransitionOutputs vmap idx t ∧
        nmap p ∈ askenetTransitionOutputs nmap t ∧
        (vmap p ∉ t.control.map vmap → vmap p ∉ t.consumed.map vmap →
          (vmap p, idx + 1) ∉ petriTransitionInputs vmap idx t) ∧
        (nmap p ∉ t.control.map nmap → nmap p ∉ t.consumed.map nmap →
          nmap p ∉ askenetTransitionInputs nmap t)) := by
  intro vmap nmap idx t
  refine ⟨?_, ?_, ?_⟩
  · intro c hc
    refine ⟨?_, ?_, ?_, ?_⟩ <;>
      simp only [petriTransitionInputs, petriTransitionOutputs,
        askenetTransitionInputs, askenetTransitionOutputs, List.mem_append,
        List.mem_map] <;>
      exact Or.inl ⟨c, hc, rfl⟩
  · intro s hs
    refine ⟨?_, ?_, ?_, ?_⟩
    · simp only [petriTransitionInputs, List.mem_append, List.mem_map]
      exact Or.inr ⟨s, hs, rfl⟩
    · simp only [askenetTransitionInputs, List.mem_append, List.mem_map]
      exact Or.inr ⟨s, hs, rfl⟩
    · intro hnc hnp
      simp only [petriTransitionOutputs, List.mem_append, not_or]
      constructor
      · intro hmem
        rcases List.mem_map.mp hmem with ⟨a, ha, hva⟩
        exact hnc (List.mem_map.mpr ⟨a, ha, congrArg Prod.fst hva⟩)
      · intro hmem
        rcases List.mem_map.mp hmem with ⟨a, ha, hva⟩
        exact hnp (List.mem_map.mpr ⟨a, ha, congrArg Prod.fst hva⟩)
    · intro hnc hnp
      simp only [askenetTransitionOutputs, List.mem_append, not_or]
      constructor
      · intro hmem
        rcases List.mem_map.mp hmem with ⟨a, ha, hva⟩
        exact hnc (List.mem_map.mpr ⟨a, ha, hva⟩)
      · intro hmem
        rcases List.mem_map.mp hmem with ⟨a, ha, hva⟩
        exact hnp (List.mem_map.mpr ⟨a, ha, hva⟩)
  · intro p hp
    refine ⟨?_, ?_, ?_, ?_⟩
    · simp only [petriTransitionOutputs, List.mem_append, List.mem_map]
      exact Or.inr ⟨p, hp, rfl⟩
    · simp only [askenetTransitionOutputs, List.mem_append, List.mem_map]
      exact Or.inr ⟨p, hp, rfl⟩
    · intro hnc hnp
      simp only [petriTransitionInputs, List.mem_append, not_or]
      constructor
      · intro hmem
        rcases List.mem_map.mp hmem with ⟨a, ha, hva⟩
        exact hnc (List.mem_map.mpr ⟨a, ha, congrArg Prod.fst hva⟩)
      · intro hmem
        rcases List.mem_map.mp hmem with ⟨a, ha, hva⟩
        exact hnp (List.mem_map.mpr ⟨a, ha, congrArg Prod.fst hva⟩)
    · intro hnc hnp
      simp only [askenetTransitionInputs, List.mem_append, not_or]
      constructor
      · intro hmem
        rcases List.mem_map.mp hmem with ⟨a, ha, hva⟩
        exact hnc (List.mem_map.mpr ⟨a, ha, hva⟩)
      · intro hmem
        rcases List.mem_map.mp hmem with ⟨a, ha, hva⟩
        exact hnp (List.mem_map.mpr ⟨a, ha, hva⟩)

/-- Witness for `petri_exporters_controller_consume_and_replenish` at a
transition with controller C, consumed S and produced O under the
`sampleVarIndex` numbering: C (place 3) is both an input and an output,
S (place 1) is an input and not an output, O (place 2) is an output and
not an input. -/
theorem petri_exporters_controller_consume_and_replenish_witness :
    (3, 1) ∈ petriTransitionInputs sampleVarIndex 0 ⟨["C"], ["S"], ["O"]⟩ ∧
    (3, 1) ∈ petriTransitionOutputs sampleVarIndex 0 ⟨["C"], ["S"], ["O"]⟩ ∧
    (1, 1) ∈ petriTransitionInputs sampleVarIndex 0 ⟨["C"], ["S"], ["O"]⟩ ∧
    (1, 1) ∉ petriTransitionOutputs sampleVarIndex 0 ⟨["C"], ["S"], ["O"]⟩ ∧
    (2, 1) ∈ petriTransitionOutputs sampleVarIndex 0 ⟨["C"], ["S"], ["O"]⟩ ∧
    (2, 1) ∉ petriTransitionInputs sampleVarIndex 0 ⟨["C"], ["S"], ["O"]⟩ := by
  have h := petri_exporters_controller_consume_and_replenish sampleVarIndex
    id 0 ⟨["C"], ["S"], ["O"]⟩
  obtain ⟨hco, hout, _, _⟩ := h.1 "C" (by decide)
  obtain ⟨hsin, _, hsno, _⟩ := h.2.1 "S" (by decide)
  obtain ⟨hpo, _, hpni, _⟩ := h.2.2 "O" (by decide)
  exact ⟨hco, hout, hsin, hsno (by decide) (by decide), hpo,
    hpni (by decide) (by decide)⟩

/-- An entry of `assocSet d k v` is either the written pair or an entry
of the original list. -/
theorem mem_assocSet {α : Type} {d : List (String × α)} {k a : String}
    {v b : α} (h : (a, b) ∈ assocSet d k v) :
    (a = k ∧ b = v) ∨ (a, b) ∈ d := by
  induction d with
  | nil =>
    simp [assocSet] at h
    exact Or.inl ⟨h.1, h.2⟩
  | cons e rest ih =>
    rw [assocSet] at h
    by_cases hk : e.1 = k
    · rw [if_pos hk] at h
      rcases List.mem_cons.mp h with h | h
      · exact Or.inl ⟨congrArg Prod.fst h, congrArg Prod.snd h⟩
      · exact Or.inr (List.mem_cons_of_mem _ h)
    · rw [if_neg hk] at h
      rcases List.mem_cons.mp h with h | h
      · exact Or.inr (h ▸ List.mem_cons_self _ _)
      · rcases ih h with h | h
        · exact Or.inl h
        · exact Or.inr (List.mem_cons_of_mem _ h)

/-- An entry of `assocPop d k` is an entry of `d` with a different
key. -/
theorem mem_assocPop {α : Type} {d : List (String × α)} {k a : String}
    {b : α} (h : (a, b) ∈ assocPop d k) : (a, b) ∈ d ∧ a ≠ k := by
  have := List.of_mem_filter h
  exact ⟨List.mem_of_mem_filter h, by simpa using this⟩

/-- A string starting with 000 does not start with C. -/
theorem not_startsWith_C_of_startsWith_000 {v : String}
    (h : strStartsWith v "000" = true) : strStartsWith v "C" = false := by
  unfold strStartsWith at h ⊢
  obtain ⟨data⟩ := v
  cases data with
  | nil => simp [List.isPrefixOf] at h
  | cons c rest =>
    have h0 : c = '0' := by
      have : ("000".data).isPrefixOf (c :: rest) = true := h
      simp [show "000".data = ['0', '0', '0'] from rfl,
        List.isPrefixOf] at this
      exact this.1.symm
    subst h0
    simp [show "C".data = ['C'] from rfl, List.isPrefixOf]

/-- Loop invariant of the prefix-swap pass: if every offending ncit or
ido entry of the working dict still remains to be visited, the final
dict satisfies the identifier invariant. -/
theorem normalizeIdentifiersLoop_good :
    ∀ (todo d : List (String × String)),
      (∀ w, ("ncit", w) ∈ d → strStartsWith w "000" → ("ncit", w) ∈ todo) →
      (∀ w, ("ido", w) ∈ d → strStartsWith w "C" → ("ido", w) ∈ todo) →
      goodIdentifiers (normalizeIdentifiersLoop todo d) := by
  intro todo
  induction todo with
  | nil =>
    intro d h1 h2
    intro w
    constructor
    · intro hmem hbad
      exact absurd (h1 w hmem hbad) (List.not_mem_nil _)
    · intro hmem hbad
      exact absurd (h2 w hmem hbad) (List.not_mem_nil _)
  | cons e rest ih =>
    intro d h1 h2
    obtain ⟨k, v⟩ := e
    rw [normalizeIdentifiersLoop]
    by_cases hA : k = "ncit" ∧ strStartsWith v "000"
    · rw [if_pos hA]
      refine ih _ ?_ ?_
      · intro w hmem hbad
        rcases mem_assocSet hmem with ⟨hk, _⟩ | hmem
        · simp at hk
        · exact absurd (mem_assocPop hmem).2 (by simp)
      · intro w hmem hbad
        rcases mem_assocSet hmem with ⟨_, hv⟩ | hmem
        · subst hv
          rw [not_startsWith_C_of_startsWith_000 hA.2] at hbad
          exact absurd hbad (by simp)
        · have hd := (mem_assocPop hmem).1
          have := h2 w hd hbad
          rcases List.mem_cons.mp this with hh | hh
          · have : ("ido" : String) = k := congrArg Prod.fst hh
            rw [hA.1] at this
            simp at this
          · exact hh
    · rw [if_neg hA]
      by_cases hB : k = "ido" ∧ strStartsWith v "C"
      · rw [if_pos hB]
        refine ih _ ?_ ?_
        · intro w hmem hbad
          rcases mem_assocSet hmem with ⟨_, hv⟩ | hmem
          · subst hv
            have := not_startsWith_C_of_startsWith_000 hbad
            rw [this] at hB
            exact absurd hB.2 (by simp)
          · have hd := (mem_assocPop hmem).1
            have := h1 w hd hbad
            rcases List.mem_cons.mp this with hh | hh
            · have : ("ncit" : String) = k := congrArg Prod.fst hh
              rw [hB.1] at this
              simp at this
            · exact hh
        · intro w hmem hbad
          rcases mem_assocSet hmem with ⟨hk, _⟩ | hmem
          · simp at hk
          · exact absurd (mem_assocPop hmem).2 (by simp)
      · rw [if_neg hB]
        refine ih _ ?_ ?_
        · intro w hmem hbad
          rcases List.mem_cons.mp (h1 w hmem hbad) with hh | hh
          · exfalso
            have hk : ("ncit" : String) = k := congrArg Prod.fst hh
            have hv : w = v := congrArg Prod.snd hh
            exact hA ⟨hk.symm, hv ▸ hbad⟩
          · exact hh
        · intro w hmem hbad
          rcases List.mem_cons.mp (h2 w hmem hbad) with hh | hh
          · exfalso
            have hk : ("ido" : String) = k := congrArg Prod.fst hh
            have hv : w = v := congrArg Prod.snd hh
            exact hB ⟨hk.symm, hv ▸ hbad⟩
          · exact hh

/-- Writing a pair that offends neither rule preserves the identifier
invariant. -/
theorem goodIdentifiers_assocSet {d : List (String × String)}
    {k v : String} (hd : goodIdentifiers d)
    (h1 : k = "ncit" → strStartsWith v "000" = false)
    (h2 : k = "ido" → strStartsWith v "C" = false) :
    goodIdentifiers (assocSet d k v) := by
  intro w
  constructor
  · intro hmem hbad
    rcases mem_assocSet hmem with ⟨hk, hv⟩ | hmem
    · subst hv
      rw [h1 hk.symm] at hbad
      exact absurd hbad (by simp)
    · exact (hd w).1 hmem hbad
  · intro hmem hbad
    rcases mem_assocSet hmem with ⟨hk, hv⟩ | hmem
    · subst hv
      rw [h2 hk.symm] at hbad
      exact absurd hbad (by simp)
    · exact (hd w).2 hmem hbad

/-- The prefix-swap loop leaves the dict unchanged when no visited entry
matches either rewrite rule. -/
theorem normalizeIdentifiersLoop_nochange :
    ∀ (todo d : List (String × String)),
      (∀ p ∈ todo, ¬(p.1 = "ncit" ∧ strStartsWith p.2 "000") ∧
        ¬(p.1 = "ido" ∧ strStartsWith p.2 "C")) →
      normalizeIdentifiersLoop todo d = d := by
  intro todo
  induction todo with
  | nil => intro d _; rfl
  | cons e rest ih =>
    intro d h
    obtain ⟨k, v⟩ := e
    rw [normalizeIdentifiersLoop]
    rw [if_neg (h (k, v) (List.mem_cons_self _ _)).1]
    rw [if_neg (h (k, v) (List.mem_cons_self _ _)).2]
    exact ih d fun p hp => h p (List.mem_cons_of_mem _ hp)

/-- C10, amended: after grounding normalization every concept satisfies
the identifier invariant (no ncit value starting with 000, no ido value
starting with C); a concept whose identifiers are exactly ncit:C168970
ends with exactly ncit:C28554; and the prefix-swap loop leaves
identifiers untouched when no entry matches a rule. Unmatched entries
can still be overwritten when a rewritten entry lands on their key, see
the counterexample. -/
theorem grounding_normalize_identifier_invariant :
    (∀ c : Concept, goodIdentifiers (grounding_normalize c).identifiers) ∧
    (∀ c : Concept, c.identifiers = [("ncit", "C168970")] →
      (grounding_normalize c).identifiers = [("ncit", "C28554")]) ∧
    (∀ ids : List (String × String),
      (∀ p ∈ ids, ¬(p.1 = "ncit" ∧ strStartsWith p.2 "000") ∧
        ¬(p.1 = "ido" ∧ strStartsWith p.2 "C")) →
      normalizeIdentifiersLoop ids ids = ids) := by
  refine ⟨?_, ?_, ?_⟩
  · intro c
    have hgood : goodIdentifiers
        (normalizeIdentifiersLoop c.identifiers c.identifiers) :=
      normalizeIdentifiersLoop_good _ _ (fun w h _ => h) (fun w h _ => h)
    unfold grounding_normalize
    dsimp only
    split
    · exact goodIdentifiers_assocSet hgood (by simp) (fun _ => by decide)
    · split
      · exact hgood
      · split
        · intro w
          refine ⟨fun hmem hbad => ?_, fun hmem hbad => ?_⟩
          · simp at hmem
          · simp at hmem
            subst hmem
            exact absurd hbad (by decide)
        · split
          · intro w
            refine ⟨fun hmem hbad => ?_, fun hmem hbad => ?_⟩
            · simp at hmem
              subst hmem
              exact absurd hbad (by decide)
            · simp at hmem
          · exact hgood
  · intro c hc
    obtain ⟨n, ids, ctx⟩ := c
    simp only at hc
    subst hc
    simp [grounding_normalize, normalizeIdentifiersLoop, getCurie,
      strStartsWith, List.isPrefixOf]
  · intro ids h
    exact normalizeIdentifiersLoop_nochange ids ids h

/-- Witness for `grounding_normalize_identifier_invariant`: the deceased
remap applied to a concept grounded exactly as ncit:C168970, and the
no-change guarantee on an identifier list matching no rule. -/
theorem grounding_normalize_identifier_invariant_witness :
    (grounding_normalize ⟨"dead", [("ncit", "C168970")], []⟩).identifiers =
      [("ncit", "C28554")] ∧
    normalizeIdentifiersLoop [("ido", "0000511")] [("ido", "0000511")] =
      [("ido", "0000511")] :=
  ⟨grounding_normalize_identifier_invariant.2.1
      ⟨"dead", [("ncit", "C168970")], []⟩ rfl,
    grounding_normalize_identifier_invariant.2.2
      [("ido", "0000511")] (by decide)⟩

end Mira
